import Mathlib

/-!
# Verification of the Figma frontend-extractor's core algorithms

A shallow embedding, in Lean 4, of the component-extraction pipeline of the
`figma-frontend-extractor-agent` repository:

* `src/services/figmaService.js` — the recursive design-tree traversal
  (`extractComponents`), the per-type property extraction, the root filter,
  and the style collector (`extractStyles`);
* `src/agents/designAnalyzerAgent.js` — the completion-API response parsing
  (`parseResponse`), including the greedy brace-span match and the fallback
  component;
* `src/services/projectExtractionService.js` — the component limiter
  (`extractFileComponents`), per-framework code generation (`generateCode`),
  and artifact file naming (`saveFileSpec`);
* `src/utils/validators.js` — `sanitizeFileName`;
* `src/repositories/generatedCodeRepository.js` — `update` / `delete` over the
  JSON-array-backed record store.

JavaScript values are embedded as follows: machine numbers that the claims
touch (padding and box fields) as `Int`; optional / possibly-`undefined`
fields as `Option`; JS objects whose key sets are dynamic as insertion-ordered
association lists (`List (String × _)`); thrown exceptions as `Except String`.
JS truthiness, where the source relies on it (`!c.parent`,
`paddingLeft || paddingTop || 0`), is embedded explicitly.
-/

set_option autoImplicit false

namespace FigmaX

/-! ## JavaScript helpers -/

/-- JS truthiness of an optional string: `undefined`/`null` and the empty
string are falsy, every other string is truthy.  Embeds `!x` (negated) for
`x : string | null`. -/
def jsStrFalsy : Option String → Bool
  | none => true
  | some s => s = ""

/-- Embeds the JS expression `a || b` for `a : number | undefined` and a
number `b`: a present, non-zero number is truthy and short-circuits;
`undefined` and `0` fall through to `b`. -/
def jsNumOr : Option Int → Int → Int
  | some v, b => if v = 0 then b else v
  | none, b => b

/-! ## Design-node data model (§ DATA MODEL of the spec)

A design node carries `id`, `name`, `type`, the optional fields read by the
property extractor, and an optional children sequence whose entries may be
null.  `ChildList` makes the possibly-null entries explicit so that the
traversal's null-skipping (figmaService.js line 89) is visible. -/

/-- The optional `style` sub-object of a `TEXT` node. -/
structure NodeStyle where
  fontSize : Option Int
  fontFamily : Option String
  fontWeight : Option Int
  textAlignHorizontal : Option String
deriving DecidableEq, Repr

/-- One entry of a node's `fills` array; the color value is kept opaque. -/
structure Fill where
  color : Option String
deriving DecidableEq, Repr

/-- The optional `absoluteBoundingBox` sub-object. -/
structure BBox where
  x : Int
  y : Int
  width : Int
  height : Int
deriving DecidableEq, Repr

/-- The optional, type-specific fields of a design node that
`extractComponents` reads. -/
structure NodeProps where
  characters : Option String
  style : Option NodeStyle
  fills : Option (List Fill)
  absoluteBoundingBox : Option BBox
  cornerRadius : Option Int
  paddingLeft : Option Int
  paddingTop : Option Int
deriving DecidableEq, Repr

/-- Empty property source: a node carrying none of the optional fields. -/
def NodeProps.none : NodeProps :=
  ⟨Option.none, Option.none, Option.none, Option.none, Option.none, Option.none, Option.none⟩

mutual
/-- A design node: `id`, `name`, `type` discriminant, the optional fields,
and an optional children sequence (absent `children` is `Option.none`). -/
inductive DesignNode : Type where
  | mk (id name type : String) (props : NodeProps) (children : Option ChildList)

/-- A `children` array: an ordered sequence whose entries are either a design
node or a null entry. -/
inductive ChildList : Type where
  | nil : ChildList
  | consNull (rest : ChildList) : ChildList
  | consNode (child : DesignNode) (rest : ChildList) : ChildList
end

/-- The `id` field of a design node. -/
def DesignNode.id : DesignNode → String
  | .mk i _ _ _ _ => i

/-- A page of the document; the traversal reads only its `children`. -/
structure Page where
  children : Option ChildList

/-- A named style definition from the file's `styles` map. -/
structure Style where
  name : String
  styleType : String
deriving DecidableEq, Repr

/-- The Figma file payload, as read by `extractComponents` / `extractStyles`:
`name`, `version`, `lastModified`, the optional `document` (with its optional
page list) and the optional `styles` map (embedded as an insertion-ordered
association list of style-id to style definition). -/
structure FileData where
  name : String
  version : String
  lastModified : String
  document : Option (Option (List Page))
  styles : Option (List (String × Style))

/-! ## Property Extractor (figmaService.js lines 102–128) -/

/-- The extracted `properties` bag; one shape per recognized `type`
discriminant, `empty` for every other type. -/
inductive Properties : Type where
  | empty : Properties
  | text (content : String) (fontSize : Option Int) (fontFamily : Option String)
      (fontWeight : Option Int) (textAlign : Option String) (color : Option String) : Properties
  | box (width height x y : Option Int) (backgroundColor : Option String)
      (borderRadius : Option Int) (padding : Int) : Properties
  | component (componentName : String) (width height : Option Int) : Properties
deriving DecidableEq, Repr

/-- Embeds `node.fills?.[0]?.color`. -/
def firstFillColor (p : NodeProps) : Option String :=
  match p.fills with
  | some (f :: _) => f.color
  | _ => none

/-- The `padding` computation of the `RECTANGLE`/`FRAME` branch:
`node.paddingLeft || node.paddingTop || 0` (JS truthiness, so a present `0`
falls through). -/
def paddingValue (p : NodeProps) : Int :=
  jsNumOr p.paddingLeft (jsNumOr p.paddingTop 0)

/-- The per-type property extraction of `extractComponents`'s `traverse`
(figmaService.js lines 102–128), keyed on the node's `type` discriminant. -/
def extractProperties (type name : String) (p : NodeProps) : Properties :=
  if type = "TEXT" then
    .text (p.characters.getD "") (p.style.bind NodeStyle.fontSize)
      (p.style.bind NodeStyle.fontFamily) (p.style.bind NodeStyle.fontWeight)
      (p.style.bind NodeStyle.textAlignHorizontal) (firstFillColor p)
  else if type = "RECTANGLE" ∨ type = "FRAME" then
    .box ((p.absoluteBoundingBox).map BBox.width) ((p.absoluteBoundingBox).map BBox.height)
      ((p.absoluteBoundingBox).map BBox.x) ((p.absoluteBoundingBox).map BBox.y)
      (firstFillColor p) p.cornerRadius (paddingValue p)
  else if type = "INSTANCE" ∨ type = "COMPONENT" then
    .component name ((p.absoluteBoundingBox).map BBox.width)
      ((p.absoluteBoundingBox).map BBox.height)
  else
    .empty

/-- The `padding` field of an extracted property bag, when the bag has one. -/
def Properties.padding : Properties → Option Int
  | .box _ _ _ _ _ _ pad => some pad
  | _ => none

/-! ## Tree Flattener (figmaService.js lines 86–151) -/

/-- The Component record built by `traverse`: `id`, `name`, `type`,
`parent` (the caller's id, or absent at top level), linked `children`, and the
extracted properties. -/
inductive Component : Type where
  | mk (id name type : String) (parent : Option String) (children : List Component)
      (properties : Properties)

def Component.id : Component → String
  | .mk i _ _ _ _ _ => i

def Component.name : Component → String
  | .mk _ n _ _ _ _ => n

def Component.type : Component → String
  | .mk _ _ t _ _ _ => t

def Component.parent : Component → Option String
  | .mk _ _ _ p _ _ => p

def Component.children : Component → List Component
  | .mk _ _ _ _ cs _ => cs

def Component.properties : Component → Properties
  | .mk _ _ _ _ _ props => props

mutual
/-- Embeds `traverse(node, parent)` for a non-null node (figmaService.js lines
88–142).  Returns the built Component (the JS return value) together with the
Components appended to the shared flat `components` array during this call:
each child subtree's contribution in order, then the node's own Component
(`components.push(component)` runs after the children are processed). -/
def traverse : DesignNode → Option String → Component × List Component
  | .mk i nm ty props children, parentId =>
    let childRes : List Component × List Component :=
      match children with
      | none => ([], [])
      | some cs => traverseChildren cs i
    let comp : Component := .mk i nm ty parentId childRes.1 (extractProperties ty nm props)
    (comp, childRes.2 ++ [comp])

/-- The `node.children.forEach` loop: each non-null child is traversed with
the current component as parent and its result pushed onto the parent's
`children`; a null entry returns early and is pushed nowhere.  First
component: the linked children in order; second: the flat-list contribution. -/
def traverseChildren : ChildList → String → List Component × List Component
  | .nil, _ => ([], [])
  | .consNull rest, parentIdent => traverseChildren rest parentIdent
  | .consNode c rest, parentIdent =>
    let r := traverse c (some parentIdent)
    let rr := traverseChildren rest parentIdent
    (r.1 :: rr.1, r.2 ++ rr.2)
end

/-- The top-level `page.children.forEach((child) => traverse(child))` loop
(figmaService.js line 148): each non-null page child is traversed with no
parent; the flat-list contributions are concatenated in order. -/
def flattenTop : ChildList → List Component
  | .nil => []
  | .consNull rest => flattenTop rest
  | .consNode c rest => (traverse c none).2 ++ flattenTop rest

/-- The flat `components` array accumulated by `extractComponents` over all
pages (figmaService.js lines 87, 145–151): absent `document`, absent document
`children`, or absent page `children` contribute nothing. -/
def flattenDocument (fd : FileData) : List Component :=
  match fd.document with
  | none => []
  | some none => []
  | some (some pages) =>
    pages.foldr
      (fun page acc =>
        (match page.children with
         | none => []
         | some cs => flattenTop cs) ++ acc)
      []

/-! ## Root Filter and `extractComponents` (figmaService.js lines 153–158) -/

/-- The return value of `extractComponents`. -/
structure ExtractedComponents where
  name : String
  version : String
  lastModified : String
  components : List Component

/-- Embeds `extractComponents(fileData)`: traverse every page's children into the
flat list, then keep `components.filter((c) => !c.parent)` — JS truthiness,
so both an absent parent and an empty-string parent id pass the filter. -/
def extractComponents (fd : FileData) : ExtractedComponents :=
  { name := fd.name
    version := fd.version
    lastModified := fd.lastModified
    components := (flattenDocument fd).filter (fun c => jsStrFalsy c.parent) }

/-! ## Node counting (spec § 8, first testable property) -/

mutual
/-- The number of non-null design nodes in the subtree rooted at a node
(itself included). -/
def countNode : DesignNode → Nat
  | .mk _ _ _ _ children =>
    1 + (match children with
         | none => 0
         | some cs => countChildren cs)

/-- The number of non-null design nodes reachable from a children sequence;
null entries contribute nothing. -/
def countChildren : ChildList → Nat
  | .nil => 0
  | .consNull rest => countChildren rest
  | .consNode c rest => countNode c + countChildren rest
end

/-- The number of non-null design nodes reachable from all pages' children
lists of a file. -/
def countDocument (fd : FileData) : Nat :=
  match fd.document with
  | none => 0
  | some none => 0
  | some (some pages) =>
    pages.foldr
      (fun page acc =>
        (match page.children with
         | none => 0
         | some cs => countChildren cs) + acc)
      0

/-- The number of non-null entries at the top of a children sequence. -/
def directChildCount : ChildList → Nat
  | .nil => 0
  | .consNull rest => directChildCount rest
  | .consNode _ rest => 1 + directChildCount rest

mutual
theorem traverse_flat_length : ∀ (n : DesignNode) (p : Option String),
    ((traverse n p).2).length = countNode n
  | .mk i nm ty props none, p => by
    simp [traverse, countNode]
  | .mk i nm ty props (some cs), p => by
    have h := traverseChildren_flat_length cs i
    simp [traverse, countNode, h]
    omega

theorem traverseChildren_flat_length : ∀ (cs : ChildList) (i : String),
    ((traverseChildren cs i).2).length = countChildren cs
  | .nil, _ => by simp [traverseChildren, countChildren]
  | .consNull rest, i => by
    have h := traverseChildren_flat_length rest i
    simpa [traverseChildren, countChildren] using h
  | .consNode c rest, i => by
    have h1 := traverse_flat_length c (some i)
    have h2 := traverseChildren_flat_length rest i
    simp [traverseChildren, countChildren, h1, h2]
end

theorem traverseChildren_linked_length : ∀ (cs : ChildList) (i : String),
    ((traverseChildren cs i).1).length = directChildCount cs
  | .nil, _ => by simp [traverseChildren, directChildCount]
  | .consNull rest, i => by
    simpa [traverseChildren, directChildCount] using traverseChildren_linked_length rest i
  | .consNode c rest, i => by
    have h := traverseChildren_linked_length rest i
    simp [traverseChildren, directChildCount, h]
    omega

theorem flattenTop_length : ∀ (cs : ChildList),
    (flattenTop cs).length = countChildren cs
  | .nil => by simp [flattenTop, countChildren]
  | .consNull rest => by
    simpa [flattenTop, countChildren] using flattenTop_length rest
  | .consNode c rest => by
    have h1 := traverse_flat_length c none
    have h2 := flattenTop_length rest
    simp [flattenTop, countChildren, h1, h2]

theorem flattenDocument_length (fd : FileData) :
    (flattenDocument fd).length = countDocument fd := by
  rcases fd with ⟨n, v, lm, doc, st⟩
  cases doc with
  | none => rfl
  | some inner =>
    cases inner with
    | none => rfl
    | some pages =>
      induction pages with
      | nil => rfl
      | cons pg rest ih =>
        simp only [flattenDocument, countDocument, List.foldr_cons] at *
        cases hc : pg.children with
        | none => simpa using ih
        | some cs => simp [flattenTop_length cs, ih]

/-! ## Truthy node ids (needed to relate the JS truthiness filter to
"parent absent") -/

mutual
/-- Every node id in the subtree is a non-empty (JS-truthy) string. -/
def nodeIdsOk : DesignNode → Bool
  | .mk i _ _ _ children =>
    (!(i = "")) &&
      (match children with
       | none => true
       | some cs => childIdsOk cs)

/-- Every node id under a children sequence is a non-empty string. -/
def childIdsOk : ChildList → Bool
  | .nil => true
  | .consNull rest => childIdsOk rest
  | .consNode c rest => nodeIdsOk c && childIdsOk rest
end

/-- Every node id reachable in the file is a non-empty string. -/
def fileIdsOk (fd : FileData) : Bool :=
  match fd.document with
  | none => true
  | some none => true
  | some (some pages) =>
    pages.all fun pg =>
      match pg.children with
      | none => true
      | some cs => childIdsOk cs

mutual
theorem traverse_parent_nonempty :
    ∀ (n : DesignNode) (p : Option String), nodeIdsOk n = true →
      (∀ s, p = some s → s ≠ "") →
      ∀ c ∈ (traverse n p).2, ∀ s, c.parent = some s → s ≠ ""
  | .mk i nm ty props none, p, hn, hp => by
    intro c hc s hs
    simp [traverse] at hc
    subst hc
    simp [Component.parent] at hs
    exact hp s hs
  | .mk i nm ty props (some cs), p, hn, hp => by
    simp only [nodeIdsOk, Bool.and_eq_true, Bool.not_eq_true', decide_eq_false_iff_not] at hn
    obtain ⟨hi, hcs⟩ := hn
    intro c hc s hs
    simp [traverse] at hc
    rcases hc with hc | hc
    · exact traverseChildren_parent_nonempty cs i hcs hi c hc s hs
    · subst hc
      simp [Component.parent] at hs
      exact hp s hs

theorem traverseChildren_parent_nonempty :
    ∀ (cs : ChildList) (i : String), childIdsOk cs = true → i ≠ "" →
      ∀ c ∈ (traverseChildren cs i).2, ∀ s, c.parent = some s → s ≠ ""
  | .nil, _, _, _ => by simp [traverseChildren]
  | .consNull rest, i, h, hi => by
    simpa [traverseChildren] using traverseChildren_parent_nonempty rest i (by simpa [childIdsOk] using h) hi
  | .consNode c rest, i, h, hi => by
    have hparts : nodeIdsOk c = true ∧ childIdsOk rest = true := by
      simpa [childIdsOk] using h
    intro d hd s hs
    simp [traverseChildren] at hd
    rcases hd with hd | hd
    · exact traverse_parent_nonempty c (some i) hparts.1
        (by intro s' hs'; cases hs'; exact hi) d hd s hs
    · exact traverseChildren_parent_nonempty rest i hparts.2 hi d hd s hs
end

theorem flattenTop_parent_nonempty :
    ∀ (cs : ChildList), childIdsOk cs = true →
      ∀ c ∈ flattenTop cs, ∀ s, c.parent = some s → s ≠ ""
  | .nil, _ => by simp [flattenTop]
  | .consNull rest, h => by
    simpa [flattenTop] using flattenTop_parent_nonempty rest (by simpa [childIdsOk] using h)
  | .consNode c rest, h => by
    have hparts : nodeIdsOk c = true ∧ childIdsOk rest = true := by
      simpa [childIdsOk] using h
    intro d hd s hs
    simp [flattenTop] at hd
    rcases hd with hd | hd
    · exact traverse_parent_nonempty c none hparts.1 (by simp) d hd s hs
    · exact flattenTop_parent_nonempty rest hparts.2 d hd s hs

theorem flattenDocument_parent_nonempty (fd : FileData) (h : fileIdsOk fd = true) :
    ∀ c ∈ flattenDocument fd, ∀ s, c.parent = some s → s ≠ "" := by
  rcases fd with ⟨n, v, lm, doc, st⟩
  cases doc with
  | none => simp [flattenDocument]
  | some inner =>
    cases inner with
    | none => simp [flattenDocument]
    | some pages =>
      induction pages with
      | nil => simp [flattenDocument]
      | cons pg rest ih =>
        simp only [fileIdsOk, List.all_cons, Bool.and_eq_true] at h
        intro c hc s hs
        simp only [flattenDocument, List.foldr_cons, List.mem_append] at hc
        rcases hc with hc | hc
        · cases hch : pg.children with
          | none => simp [hch] at hc
          | some cs =>
            rw [hch] at hc
            have hcs : childIdsOk cs = true := by
              have := h.1
              rw [hch] at this
              exact this
            exact flattenTop_parent_nonempty cs hcs c hc s hs
        · exact ih (by simpa [fileIdsOk] using h.2) c hc s hs

/-- The Component handed back to the caller carries exactly the parent id it
was called with (`parent: parent ? parent.id : null` with a truthy caller). -/
theorem traverse_fst_parent (n : DesignNode) (p : Option String) :
    (traverse n p).1.parent = p := by
  rcases n with ⟨i, nm, ty, props, children⟩
  cases children <;> simp [traverse, Component.parent]

/-- Every component linked into a parent's `children` collection was built
with that parent's id as its `parent` reference. -/
theorem traverseChildren_linked_parent : ∀ (cs : ChildList) (i : String),
    ∀ c ∈ (traverseChildren cs i).1, c.parent = some i
  | .nil, _ => by simp [traverseChildren]
  | .consNull rest, i => by
    simpa [traverseChildren] using traverseChildren_linked_parent rest i
  | .consNode c rest, i => by
    intro d hd
    simp [traverseChildren] at hd
    rcases hd with hd | hd
    · subst hd
      exact traverse_fst_parent c (some i)
    · exact traverseChildren_linked_parent rest i d hd

/-- A concrete document on which the root filter, as the claim states it,
disagrees with the code: one page whose single child has the (falsy) id `""`
and one nested child.  The nested component's `parent` is the present string
`""`, yet `!c.parent` lets it through. -/
def c1Doc : FileData :=
  { name := "file"
    version := "1"
    lastModified := "today"
    document := some (some [⟨some (.consNode
      (.mk "" "Outer" "FRAME" NodeProps.none
        (some (.consNode (.mk "inner-1" "Inner" "TEXT" NodeProps.none none) .nil)))
      .nil)⟩])
    styles := none }

/-- C1, counterexample: on `c1Doc` the list returned by `extractComponents`
is not the subsequence of the flat traversal list whose `parent` is absent —
the code's truthiness filter also keeps the nested component whose `parent`
is the empty string. -/
theorem c1_counterexample :
    ¬((extractComponents c1Doc).components
        = (flattenDocument c1Doc).filter (fun c => c.parent = none)) := by
  intro hEq
  exact absurd (congrArg List.length hEq) (by decide)

/-- C1, amended: provided every node id in the document is a non-empty
string (JS-truthy), the component list returned by `extractComponents` is
exactly the subsequence of the flat traversal list whose `parent` reference
is absent; moreover a component linked under a parent during recursion always
carries that parent's id, and the component returned for a page child carries
no parent, so the returned roots are exactly the components built from direct
children of pages. -/
theorem c1_root_filter (fd : FileData) (h : fileIdsOk fd = true) :
    ((extractComponents fd).components
        = (flattenDocument fd).filter (fun c => c.parent = none))
    ∧ (∀ (cs : ChildList) (i : String), ∀ c ∈ (traverseChildren cs i).1, c.parent = some i)
    ∧ (∀ (n : DesignNode) (p : Option String), (traverse n p).1.parent = p) := by
  refine ⟨?_, traverseChildren_linked_parent, traverse_fst_parent⟩
  have hrw : (extractComponents fd).components
      = (flattenDocument fd).filter (fun c => jsStrFalsy c.parent) := rfl
  rw [hrw]
  apply List.filter_congr
  intro c hc
  cases hcp : c.parent with
  | none => simp [jsStrFalsy]
  | some s =>
    have hs := flattenDocument_parent_nonempty fd h c hc s hcp
    simp [jsStrFalsy, hs]

/-- A concrete well-formed document (all ids non-empty) witnessing
`c1_root_filter`. -/
def c1WitnessDoc : FileData :=
  { name := "file"
    version := "1"
    lastModified := "today"
    document := some (some [⟨some (.consNode
      (.mk "root-1" "Outer" "FRAME" NodeProps.none
        (some (.consNode (.mk "child-1" "Inner" "TEXT" NodeProps.none none) .nil)))
      .nil)⟩])
    styles := none }

/-- Witness for `c1_root_filter` at `c1WitnessDoc`. -/
theorem c1_root_filter_witness :
    fileIdsOk c1WitnessDoc = true ∧
    (extractComponents c1WitnessDoc).components
      = (flattenDocument c1WitnessDoc).filter (fun c => c.parent = none) :=
  ⟨by decide, (c1_root_filter c1WitnessDoc (by decide)).1⟩

/-- C2: the flat Component list collected by the Tree Flattener has exactly
one entry per non-null design node reachable from all pages' children lists;
null entries in a children sequence contribute nothing to the flat list and
are likewise not added to the parent's linked `children` collection. -/
theorem c2_flat_list_counts_nonnull_nodes :
    (∀ fd : FileData, (flattenDocument fd).length = countDocument fd)
    ∧ ∀ (cs : ChildList) (i : String),
        ((traverseChildren cs i).1).length = directChildCount cs :=
  ⟨flattenDocument_length, traverseChildren_linked_length⟩

/-! ## C3: the padding fallback chain -/

/-- A `RECTANGLE`/`FRAME` node's properties reduce to a `box` bag whose
`padding` is the `paddingLeft || paddingTop || 0` chain. -/
theorem extractProperties_box_padding (ty nm : String) (p : NodeProps)
    (h : ty = "RECTANGLE" ∨ ty = "FRAME") :
    (extractProperties ty nm p).padding = some (paddingValue p) := by
  rcases h with h | h <;> subst h <;> simp [extractProperties, Properties.padding]

/-- A rectangle carrying `paddingLeft: 0` and `paddingTop: 5`. -/
def c3Props : NodeProps :=
  { NodeProps.none with paddingLeft := some 0, paddingTop := some 5 }

/-- C3, counterexample: the claim says a present `paddingLeft` always wins,
but the source computes `paddingLeft || paddingTop || 0`, and the number `0`
is JS-falsy: with `paddingLeft: 0, paddingTop: 5` the extracted padding is
`5`, not the claimed `0`. -/
theorem c3_counterexample :
    c3Props.paddingLeft = some 0
    ∧ (extractProperties "RECTANGLE" "Rect" c3Props).padding ≠ some 0
    ∧ (extractProperties "RECTANGLE" "Rect" c3Props).padding = some 5 := by
  decide

/-- C3, amended: for every node of type `RECTANGLE` or `FRAME`, the extracted
`properties.padding` equals `paddingLeft` when that field is present *and
non-zero*, otherwise `paddingTop` when present *and non-zero*, otherwise `0`;
in particular, with neither field present (or either present as `0`) the
padding is `0`. -/
theorem c3_padding (ty nm : String) (p : NodeProps)
    (h : ty = "RECTANGLE" ∨ ty = "FRAME") :
    (∀ v : Int, p.paddingLeft = some v → v ≠ 0 →
        (extractProperties ty nm p).padding = some v)
    ∧ (∀ w : Int, (p.paddingLeft = none ∨ p.paddingLeft = some 0) →
        p.paddingTop = some w → w ≠ 0 →
        (extractProperties ty nm p).padding = some w)
    ∧ ((p.paddingLeft = none ∨ p.paddingLeft = some 0) →
        (p.paddingTop = none ∨ p.paddingTop = some 0) →
        (extractProperties ty nm p).padding = some 0) := by
  have hbox := extractProperties_box_padding ty nm p h
  refine ⟨?_, ?_, ?_⟩
  · intro v hv hne
    rw [hbox]
    simp [paddingValue, jsNumOr, hv, hne]
  · intro w hl ht hne
    rw [hbox]
    rcases hl with hl | hl <;> simp [paddingValue, jsNumOr, hl, ht, hne]
  · intro hl ht
    rw [hbox]
    rcases hl with hl | hl <;> rcases ht with ht | ht <;>
      simp [paddingValue, jsNumOr, hl, ht]

/-- Witness for `c3_padding`: a `FRAME` with neither padding field extracts
`padding = 0`. -/
theorem c3_padding_witness :
    (("FRAME" : String) = "RECTANGLE" ∨ ("FRAME" : String) = "FRAME")
    ∧ (extractProperties "FRAME" "F" NodeProps.none).padding = some 0 :=
  ⟨Or.inr rfl,
    (c3_padding "FRAME" "F" NodeProps.none (Or.inr rfl)).2.2 (Or.inl rfl) (Or.inl rfl)⟩

/-! ## JSON values and a model of `JSON.parse`

The completion-API response handling (`parseResponse`,
designAnalyzerAgent.js lines 387–423) and the record store operate on
dynamic JSON data; we embed JSON values as an inductive type.  JS objects
keep insertion order and later assignments to an existing key overwrite the
value in place, which `setKey` reproduces. -/

/-- A JSON value.  Number literals are kept as their lexeme: no claim under
verification inspects numeric values. -/
inductive Json : Type where
  | null : Json
  | bool (b : Bool) : Json
  | num (lexeme : String) : Json
  | str (s : String) : Json
  | arr (elems : List Json) : Json
  | obj (fields : List (String × Json)) : Json

/-- Property read on an insertion-ordered object: the value at the (unique)
matching key. -/
def lookupKey {α : Type} : List (String × α) → String → Option α
  | [], _ => none
  | (k, v) :: rest, key => if k = key then some v else lookupKey rest key

/-- Property write on an insertion-ordered object: overwrite in place when
the key exists, append otherwise (JS assignment semantics). -/
def setKey {α : Type} : List (String × α) → String → α → List (String × α)
  | [], k, v => [(k, v)]
  | (k', v') :: rest, k, v =>
    if k' = k then (k, v) :: rest else (k', v') :: setKey rest k v

/-- Property read on a JSON value: defined only on objects. -/
def objGet (j : Json) (key : String) : Option Json :=
  match j with
  | .obj fields => lookupKey fields key
  | _ => none

/-- The whitespace characters JSON.parse skips. -/
def isJsonWs (c : Char) : Bool :=
  c = ' ' || c = '\t' || c = '\n' || c = '\r'

/-- Hexadecimal digit value, for `\u` escapes. -/
def hexDigit (c : Char) : Option Nat :=
  if '0' ≤ c ∧ c ≤ '9' then some (c.toNat - 48)
  else if 'a' ≤ c ∧ c ≤ 'f' then some (c.toNat - 87)
  else if 'A' ≤ c ∧ c ≤ 'F' then some (c.toNat - 55)
  else none

/-- Single-character string escapes. -/
def unescapeChar (c : Char) : Option Char :=
  if c = '"' then some '"'
  else if c = '\\' then some '\\'
  else if c = '/' then some '/'
  else if c = 'b' then some (Char.ofNat 8)
  else if c = 'f' then some (Char.ofNat 12)
  else if c = 'n' then some '\n'
  else if c = 'r' then some '\r'
  else if c = 't' then some '\t'
  else none

/-- Body of a JSON string, after the opening quote: characters up to the
closing quote, with escapes resolved; raw control characters are rejected.
(`\u` escapes map to the scalar of the same value; surrogate-pair joining is
not modeled — no string under test uses `\u`.) -/
def parseStringBody : List Char → Option (List Char × List Char)
  | [] => none
  | c :: rest =>
    if c = '"' then some ([], rest)
    else if c = '\\' then
      match rest with
      | [] => none
      | e :: rest2 =>
        if e = 'u' then
          match rest2 with
          | a :: b :: c2 :: d :: rest3 =>
            match hexDigit a, hexDigit b, hexDigit c2, hexDigit d with
            | some ha, some hb, some hc, some hd =>
              match parseStringBody rest3 with
              | some (body, leftover) =>
                some (Char.ofNat (((ha * 16 + hb) * 16 + hc) * 16 + hd) :: body, leftover)
              | none => none
            | _, _, _, _ => none
          | _ => none
        else
          match unescapeChar e with
          | some ec =>
            match parseStringBody rest2 with
            | some (body, leftover) => some (ec :: body, leftover)
            | none => none
          | none => none
    else if c.toNat < 32 then none
    else
      match parseStringBody rest with
      | some (body, leftover) => some (c :: body, leftover)
      | none => none

/-- Decimal digit test. -/
def isDigitChar (c : Char) : Bool :=
  '0' ≤ c && c ≤ '9'

/-- A JSON number lexeme: optional minus, integer part without leading
zeros, optional fraction, optional exponent.  Returns the lexeme and the
leftover input. -/
def parseNumber (cs : List Char) : Option (String × List Char) :=
  let (sign, cs1) : List Char × List Char :=
    match cs with
    | '-' :: rest => (['-'], rest)
    | _ => ([], cs)
  match cs1 with
  | [] => none
  | c :: rest =>
    if c = '0' ∨ ¬(isDigitChar c = true) then
      if c = '0' then
        let (fracexp, cs2) := numTail rest
        some (String.mk (sign ++ ['0'] ++ fracexp), cs2)
      else none
    else
      let intDigits := rest.takeWhile isDigitChar
      let rest1 := rest.dropWhile isDigitChar
      let (fracexp, cs2) := numTail rest1
      some (String.mk (sign ++ (c :: intDigits) ++ fracexp), cs2)
where
  /-- Optional fraction then optional exponent. -/
  numTail (cs : List Char) : List Char × List Char :=
    let (frac, cs1) : List Char × List Char :=
      match cs with
      | '.' :: d :: rest =>
        if isDigitChar d then
          ('.' :: d :: rest.takeWhile isDigitChar, rest.dropWhile isDigitChar)
        else ([], cs)
      | _ => ([], cs)
    match cs1 with
    | e :: rest =>
      if e = 'e' ∨ e = 'E' then
        match rest with
        | s :: d :: rest2 =>
          if (s = '+' ∨ s = '-') ∧ isDigitChar d = true then
            (frac ++ [e, s, d] ++ rest2.takeWhile isDigitChar,
              rest2.dropWhile isDigitChar)
          else if isDigitChar s then
            (frac ++ [e, s] ++ (d :: rest2).takeWhile isDigitChar,
              (d :: rest2).dropWhile isDigitChar)
          else (frac, cs1)
        | [s] =>
          if isDigitChar s then (frac ++ [e, s], []) else (frac, cs1)
        | [] => (frac, cs1)
      else (frac, cs1)
    | [] => (frac, cs1)

mutual
/-- Fueled recursive-descent parser for one JSON value (model of the
grammar `JSON.parse` accepts); returns the value and the leftover input. -/
def parseValue : Nat → List Char → Option (Json × List Char)
  | 0, _ => none
  | fuel + 1, cs =>
    match cs.dropWhile isJsonWs with
    | [] => none
    | c :: rest =>
      if c = '{' then
        match rest.dropWhile isJsonWs with
        | '}' :: rest2 => some (.obj [], rest2)
        | rest1 =>
          match parseMembers fuel rest1 with
          | some (fields, rest2) =>
            some (.obj (fields.foldl (fun acc kv => setKey acc kv.1 kv.2) []), rest2)
          | none => none
      else if c = '[' then
        match rest.dropWhile isJsonWs with
        | ']' :: rest2 => some (.arr [], rest2)
        | rest1 =>
          match parseElements fuel rest1 with
          | some (elems, rest2) => some (.arr elems, rest2)
          | none => none
      else if c = '"' then
        match parseStringBody rest with
        | some (body, rest1) => some (.str (String.mk body), rest1)
        | none => none
      else
        match c :: rest with
        | 't' :: 'r' :: 'u' :: 'e' :: rest1 => some (.bool true, rest1)
        | 'f' :: 'a' :: 'l' :: 's' :: 'e' :: rest1 => some (.bool false, rest1)
        | 'n' :: 'u' :: 'l' :: 'l' :: rest1 => some (.null, rest1)
        | cs1 =>
          match parseNumber cs1 with
          | some (lex, rest1) => some (.num lex, rest1)
          | none => none

/-- One or more `"key": value` members of an object, up to and including the
closing brace. -/
def parseMembers : Nat → List Char → Option (List (String × Json) × List Char)
  | 0, _ => none
  | fuel + 1, cs =>
    match cs with
    | '"' :: rest =>
      match parseStringBody rest with
      | some (key, rest1) =>
        match rest1.dropWhile isJsonWs with
        | ':' :: rest2 =>
          match parseValue fuel rest2 with
          | some (v, rest3) =>
            match rest3.dropWhile isJsonWs with
            | ',' :: rest4 =>
              match parseMembers fuel (rest4.dropWhile isJsonWs) with
              | some (fields, rest5) => some ((String.mk key, v) :: fields, rest5)
              | none => none
            | '}' :: rest4 => some ([(String.mk key, v)], rest4)
            | _ => none
          | none => none
        | _ => none
      | none => none
    | _ => none

/-- One or more elements of an array, up to and including the closing
bracket. -/
def parseElements : Nat → List Char → Option (List Json × List Char)
  | 0, _ => none
  | fuel + 1, cs =>
    match parseValue fuel cs with
    | some (v, rest) =>
      match rest.dropWhile isJsonWs with
      | ',' :: rest1 =>
        match parseElements fuel rest1 with
        | some (elems, rest2) => some (v :: elems, rest2)
        | none => none
      | ']' :: rest1 => some ([v], rest1)
      | _ => none
    | none => none
end

/-- Model of `JSON.parse` on a whole string: one value, nothing but
whitespace after it; `none` plays the role of the thrown `SyntaxError`. -/
def jsonParse (s : String) : Option Json :=
  match parseValue (s.length + 1) s.data with
  | some (v, rest) => if rest.dropWhile isJsonWs = [] then some v else none
  | none => none

/-! ## Response parsing (designAnalyzerAgent.js lines 387–423) -/

/-- The leftmost match of the greedy pattern `/\x7b[\s\S]*\x7d/` in
`response.match(...)`: the span from the first opening brace to the last
closing brace after it, or `none` when no such span exists. -/
def braceSpan (s : String) : Option String :=
  let rest := s.data.dropWhile (fun c => !(c = '{'))
  let span := (rest.reverse.dropWhile (fun c => !(c = '}'))).reverse
  if span.isEmpty then none else some (String.mk span)

/-- The synthetic single-component artifact `parseResponse` falls back to,
wrapping the raw response text. -/
def fallbackArtifact (response notes : String) : Json :=
  .obj [("components", .arr [.obj [("name", .str "GeneratedComponent"),
          ("code", .str response), ("styles", .str ""), ("dependencies", .arr [])]]),
        ("globalStyles", .str ""), ("notes", .str notes)]

/-- Embeds `parseResponse(response)`: extract the brace span and parse it;
a successfully parsed span is returned as-is; a span that fails to parse
falls back with notes `"Raw AI response"`; no span at all falls back with
notes `"Generated code from AI response"`. -/
def parseResponse (response : String) : Json :=
  match braceSpan response with
  | some span =>
    match jsonParse span with
    | some v => v
    | none => fallbackArtifact response "Raw AI response"
  | none => fallbackArtifact response "Generated code from AI response"

/-! ## C4 and C8: response parsing -/

/-- Spec-side reading of "containing a `(openbrace)...(closebrace)` span":
some opening brace occurs strictly before some closing brace. -/
def hasBracePair : List Char → Bool
  | [] => false
  | c :: rest => (c = '{' && rest.contains '}') || hasBracePair rest

theorem hasBracePair_close_mem {cs : List Char} (h : hasBracePair cs = true) :
    '}' ∈ cs := by
  induction cs with
  | nil => simp [hasBracePair] at h
  | cons c rest ih =>
    simp only [hasBracePair, Bool.or_eq_true, Bool.and_eq_true] at h
    rcases h with ⟨_, hmem⟩ | h
    · exact List.mem_cons_of_mem c (by simpa using hmem)
    · exact List.mem_cons_of_mem c (ih h)

theorem hasBracePair_eq_false_iff (cs : List Char) :
    hasBracePair cs = false
      ↔ ∀ x ∈ cs.dropWhile (fun c => !(c = '{')), ¬(x = '}') := by
  induction cs with
  | nil => simp [hasBracePair]
  | cons c rest ih =>
    by_cases hc : c = '{'
    · subst hc
      simp only [hasBracePair, List.dropWhile, decide_True, Bool.not_true,
        Bool.or_eq_false_iff, Bool.and_eq_false_iff]
      constructor
      · rintro ⟨h1, h2⟩ x hx
        rcases List.mem_cons.mp hx with hx | hx
        · subst hx; decide
        · intro hxe
          subst hxe
          rcases h1 with h1 | h1
          · simp at h1
          · simp [List.contains, List.elem_iff] at h1
            exact h1 hx
      · intro h
        have hmem : '}' ∉ rest := fun hm => h '}' (List.mem_cons_of_mem _ hm) rfl
        refine ⟨Or.inr ?_, ?_⟩
        · simpa [List.contains, List.elem_iff] using hmem
        · cases hp : hasBracePair rest with
          | false => rfl
          | true => exact absurd (hasBracePair_close_mem hp) hmem
    · have hstep : hasBracePair (c :: rest) = hasBracePair rest := by
        simp [hasBracePair, hc]
      have hdrop : (c :: rest).dropWhile (fun c => !(c = '{'))
          = rest.dropWhile (fun c => !(c = '{')) := by
        simp [List.dropWhile, hc]
      rw [hstep, hdrop]
      exact ih

/-- The regex finds no match exactly when no opening brace is followed by a
closing brace. -/
theorem braceSpan_eq_none_iff (s : String) :
    braceSpan s = none ↔ hasBracePair s.data = false := by
  rw [hasBracePair_eq_false_iff]
  unfold braceSpan
  by_cases h :
      (((s.data.dropWhile fun c => !(c = '{')).reverse.dropWhile
        fun c => !(c = '}')).reverse).isEmpty = true
  · simp only [h, if_true, true_iff]
    have h' := h
    rw [List.isEmpty_iff, List.reverse_eq_nil_iff, List.dropWhile_eq_nil_iff] at h'
    intro x hx hxe
    have := h' x (by simpa using hx)
    subst hxe
    simp at this
  · simp only [h, if_false]
    constructor
    · intro hfalse
      simp at hfalse
    · intro hall
      exfalso
      apply h
      rw [List.isEmpty_iff, List.reverse_eq_nil_iff, List.dropWhile_eq_nil_iff]
      intro x hx
      have := hall x (by simpa using hx)
      simpa using this

/-- The completion-API response of the spec's C4 scenario. -/
def c4Text : String :=
  "Here is the code: \x7b\"components\":[\x7b\"name\":\"Test\",\"code\":\"x\",\"styles\":\"\",\"dependencies\":[]\x7d],\"globalStyles\":\"\",\"notes\":\"\"\x7d"

/-- The single generated component that scenario should produce. -/
def c4Component : Json :=
  .obj [("name", .str "Test"), ("code", .str "x"), ("styles", .str ""),
        ("dependencies", .arr [])]

/-- C4: whenever the response text has a brace span and that span parses as
JSON, `parseResponse` returns exactly the parsed structure; in particular the
spec's scenario text parses to an artifact whose `components` array holds
exactly one component, named `"Test"`. -/
theorem c4_parse_embedded_json :
    (∀ (r span : String) (v : Json),
        braceSpan r = some span → jsonParse span = some v → parseResponse r = v)
    ∧ objGet (parseResponse c4Text) "components" = some (.arr [c4Component])
    ∧ objGet c4Component "name" = some (.str "Test") := by
  refine ⟨?_, ?_, ?_⟩
  · intro r span v hspan hparse
    simp [parseResponse, hspan, hparse]
  · rfl
  · rfl

/-- Witness for the quantified part of `c4_parse_embedded_json`. -/
theorem c4_witness :
    parseResponse "answer: \x7b\"ok\":true\x7d" = .obj [("ok", .bool true)] :=
  c4_parse_embedded_json.1 "answer: \x7b\"ok\":true\x7d" "\x7b\"ok\":true\x7d"
    (.obj [("ok", .bool true)]) rfl rfl

/-- C8: a response containing no brace pair anywhere produces the synthetic
one-component artifact: a single component named `"GeneratedComponent"`
whose `code` is the raw response text verbatim. -/
theorem c8_no_span_fallback (r : String) (h : hasBracePair r.data = false) :
    parseResponse r
      = .obj [("components", .arr [.obj [("name", .str "GeneratedComponent"),
                ("code", .str r), ("styles", .str ""), ("dependencies", .arr [])]]),
              ("globalStyles", .str ""),
              ("notes", .str "Generated code from AI response")] := by
  have hnone : braceSpan r = none := (braceSpan_eq_none_iff r).mpr h
  simp [parseResponse, hnone, fallbackArtifact]

/-- Witness for `c8_no_span_fallback` on a concrete brace-free response. -/
theorem c8_witness :
    hasBracePair "plain text answer".data = false
    ∧ parseResponse "plain text answer"
      = .obj [("components", .arr [.obj [("name", .str "GeneratedComponent"),
                ("code", .str "plain text answer"), ("styles", .str ""),
                ("dependencies", .arr [])]]),
              ("globalStyles", .str ""),
              ("notes", .str "Generated code from AI response")] :=
  ⟨by decide, c8_no_span_fallback "plain text answer" (by decide)⟩

/-! ## C5: per-framework code generation
(projectExtractionService.js lines 83–114) -/

/-- The minimal per-component view sent to the agent (lines 92–97): `id`,
`name`, `type`, `properties`, dropping `parent` and the nested `children`. -/
structure SimplifiedComponent where
  id : String
  name : String
  type : String
  properties : Properties

/-- Projection of one Component to its minimal view. -/
def simplifyComponent (c : Component) : SimplifiedComponent :=
  { id := c.id, name := c.name, type := c.type, properties := c.properties }

/-- The simplified payload: the spread `(...componentsData)` keeps `name`,
`version`, `lastModified`; `components` is replaced by the mapped minimal
views. -/
structure SimplifiedData where
  name : String
  version : String
  lastModified : String
  components : List SimplifiedComponent

/-- Builds `simplifiedComponents` (lines 89–98). -/
def simplifyComponents (cd : ExtractedComponents) : SimplifiedData :=
  { name := cd.name
    version := cd.version
    lastModified := cd.lastModified
    components := cd.components.map simplifyComponent }

/-- The failure record written into a framework's slot on a caught error
(lines 106–109). -/
def failedEntry (e : String) : Json :=
  .obj [("error", .str e), ("status", .str "failed")]

/-- Embeds `agent.analyzeAndGenerateCode(components, framework, options)`
(designAnalyzerAgent.js lines 234–243).  The external completion API is
abstracted as an oracle `callAI` from the simplified payload and target
framework to either a response text or a thrown message (`buildPrompt` is
branch-free string templating, so quantifying over oracles on the payload
covers every oracle on prompt texts).  A successful response is parsed with
`parseResponse`; an exception is rethrown with the
`Failed to generate code: ` prefix. -/
def analyzeAndGenerateCode (callAI : SimplifiedData → String → Except String String)
    (comps : SimplifiedData) (framework : String) : Except String Json :=
  match callAI comps framework with
  | .ok response => .ok (parseResponse response)
  | .error e => .error ("Failed to generate code: " ++ e)

/-- Embeds `generateCode(componentsData, frameworks, options)` (lines
83–114): frameworks are processed in order; each slot of the returned
mapping receives the framework's generated artifact, or — when the agent
call throws — the caught failure record; the loop itself never throws. -/
def generateCode (callAI : SimplifiedData → String → Except String String)
    (componentsData : ExtractedComponents) (frameworks : List String) :
    List (String × Json) :=
  frameworks.foldl
    (fun acc framework =>
      match analyzeAndGenerateCode callAI (simplifyComponents componentsData) framework with
      | .ok code => setKey acc framework code
      | .error e => setKey acc framework (failedEntry e))
    []

theorem lookupKey_setKey_self {α : Type} (l : List (String × α)) (k : String) (v : α) :
    lookupKey (setKey l k v) k = some v := by
  induction l with
  | nil => simp [setKey, lookupKey]
  | cons kv rest ih =>
    rcases kv with ⟨k', v'⟩
    by_cases h : k' = k
    · subst h
      simp [setKey, lookupKey]
    · simp [setKey, lookupKey, h, ih]

theorem lookupKey_setKey_ne {α : Type} (l : List (String × α)) (k k' : String) (v : α)
    (h : ¬(k = k')) :
    lookupKey (setKey l k v) k' = lookupKey l k' := by
  induction l with
  | nil => simp [setKey, lookupKey, h]
  | cons kv rest ih =>
    rcases kv with ⟨k0, v0⟩
    by_cases h0 : k0 = k
    · subst h0
      simp [setKey, lookupKey, h]
    · simp [setKey, lookupKey, h0, ih]

theorem foldl_setKey_lookup_notmem {α : Type} (f : String → α) (fws : List String)
    (acc : List (String × α)) (fw : String) (h : ¬(fw ∈ fws)) :
    lookupKey (fws.foldl (fun acc k => setKey acc k (f k)) acc) fw = lookupKey acc fw := by
  induction fws generalizing acc with
  | nil => rfl
  | cons k rest ih =>
    have hk : ¬(k = fw) := fun he => h (he ▸ List.mem_cons_self k rest)
    rw [List.foldl_cons, ih _ (fun hm => h (List.mem_cons_of_mem _ hm)),
      lookupKey_setKey_ne _ _ _ _ hk]

theorem foldl_setKey_lookup {α : Type} (f : String → α) (fws : List String)
    (acc : List (String × α)) (fw : String) (h : fw ∈ fws) :
    lookupKey (fws.foldl (fun acc k => setKey acc k (f k)) acc) fw = some (f fw) := by
  induction fws generalizing acc with
  | nil => cases h
  | cons k rest ih =>
    rw [List.foldl_cons]
    rcases List.mem_cons.mp h with h | h
    · subst h
      by_cases hmem : fw ∈ rest
      · exact ih _ hmem
      · rw [foldl_setKey_lookup_notmem f rest _ fw hmem, lookupKey_setKey_self]
    · exact ih _ h

/-- C5: for every oracle, component payload and requested framework list,
each requested framework's slot of the mapping returned by `generateCode`
holds exactly that framework's own outcome — its generated artifact when the
agent call succeeds, the `(error, status: failed)` record when it throws.
The slot's content does not depend on the other frameworks' outcomes, the
failed framework's slot is the failure record, and `generateCode` is a total
function: no exception escapes. -/
theorem c5_framework_isolation (callAI : SimplifiedData → String → Except String String)
    (cd : ExtractedComponents) (fws : List String) (fw : String) (h : fw ∈ fws) :
    lookupKey (generateCode callAI cd fws) fw
      = some (match analyzeAndGenerateCode callAI (simplifyComponents cd) fw with
              | .ok code => code
              | .error e => failedEntry e) := by
  have hstep :
      (fun (acc : List (String × Json)) (framework : String) =>
        match analyzeAndGenerateCode callAI (simplifyComponents cd) framework with
        | .ok code => setKey acc framework code
        | .error e => setKey acc framework (failedEntry e))
      = (fun acc framework =>
          setKey acc framework
            (match analyzeAndGenerateCode callAI (simplifyComponents cd) framework with
             | .ok code => code
             | .error e => failedEntry e)) := by
    funext acc framework
    cases analyzeAndGenerateCode callAI (simplifyComponents cd) framework <;> rfl
  unfold generateCode
  rw [hstep]
  exact foldl_setKey_lookup _ fws [] fw h

/-- Recording oracle for the C5 scenario: generation succeeds for every
framework except `vue`, where the call raises. -/
def c5Oracle : SimplifiedData → String → Except String String :=
  fun _ framework =>
    if framework = "vue" then .error "API call failed" else .ok "plain response"

/-- Empty extraction payload for the C5 scenario. -/
def c5Data : ExtractedComponents :=
  { name := "f", version := "1", lastModified := "today", components := [] }

/-- Witness for `c5_framework_isolation` on the spec's scenario: frameworks
`[react, vue]` with `vue` raising still yield a `react` artifact and a `vue`
failure record. -/
theorem c5_witness :
    lookupKey (generateCode c5Oracle c5Data ["react", "vue"]) "react"
      = some (fallbackArtifact "plain response" "Generated code from AI response")
    ∧ lookupKey (generateCode c5Oracle c5Data ["react", "vue"]) "vue"
      = some (failedEntry "Failed to generate code: API call failed") :=
  ⟨(c5_framework_isolation c5Oracle c5Data ["react", "vue"] "react" (by decide)).trans
      (by rfl),
    (c5_framework_isolation c5Oracle c5Data ["react", "vue"] "vue" (by decide)).trans
      (by rfl)⟩

/-! ## C6: Component Limiter (projectExtractionService.js lines 66–69) -/

/-- Embeds the limiting step of `extractFileComponents`: when the root list
is longer than `maxComponents` it is replaced by `slice(0, maxComponents)`,
otherwise left untouched. -/
def limitComponents (components : List Component) (maxComponents : Nat) : List Component :=
  if components.length > maxComponents then components.take maxComponents else components

/-- C6: the Component Limiter returns the prefix of the list of length
`min (length, N)`, in original order; a list no longer than the maximum is
returned unchanged — no padding and no error. -/
theorem c6_component_limiter (l : List Component) (n : Nat) :
    limitComponents l n = l.take n
    ∧ (limitComponents l n).length = min l.length n
    ∧ (l.length ≤ n → limitComponents l n = l) := by
  have htake : limitComponents l n = l.take n := by
    unfold limitComponents
    by_cases h : l.length > n
    · simp [h]
    · rw [if_neg h, List.take_of_length_le (by omega)]
  refine ⟨htake, ?_, ?_⟩
  · rw [htake, List.length_take]
    omega
  · intro hle
    rw [htake, List.take_of_length_le hle]

/-- A concrete root component for the C6 witness. -/
def c6Comp : Component := .mk "a" "A" "FRAME" Option.none [] .empty

/-- Witness for `c6_component_limiter`: a one-element list with maximum 3 is
returned unchanged. -/
theorem c6_witness :
    ([c6Comp].length ≤ 3) ∧ limitComponents [c6Comp] 3 = [c6Comp] :=
  ⟨by simp, (c6_component_limiter [c6Comp] 3).2.2 (by simp)⟩

/-! ## C7: Style Collector (figmaService.js lines 166–186) -/

/-- The three output buckets of `extractStyles`, each an insertion-ordered
mapping from style `name` to the style definition. -/
structure StyleBuckets where
  colors : List (String × Style)
  typography : List (String × Style)
  effects : List (String × Style)
deriving DecidableEq, Repr

/-- The initial (and absent-input) value: three empty buckets. -/
def emptyBuckets : StyleBuckets := ⟨[], [], []⟩

/-- One loop iteration of `extractStyles`: classify a style definition by
its `styleType`, re-keying it under its `name`; any other `styleType` is
dropped. -/
def collectStyle (acc : StyleBuckets) (style : Style) : StyleBuckets :=
  if style.styleType = "FILL" then
    { acc with colors := setKey acc.colors style.name style }
  else if style.styleType = "TEXT" then
    { acc with typography := setKey acc.typography style.name style }
  else if style.styleType = "EFFECT" then
    { acc with effects := setKey acc.effects style.name style }
  else acc

/-- Embeds `extractStyles(fileData)`: when `fileData.styles` is present,
fold `collectStyle` over its entries (`Object.entries` order, ignoring the
style-id key); otherwise return the empty buckets. -/
def extractStyles (fd : FileData) : StyleBuckets :=
  match fd.styles with
  | none => emptyBuckets
  | some entries => entries.foldl (fun acc kv => collectStyle acc kv.2) emptyBuckets

/-- Number of input definitions carrying one of the three recognized
`styleType`s. -/
def recognizedCount (entries : List (String × Style)) : Nat :=
  entries.countP fun kv =>
    kv.2.styleType = "FILL" || kv.2.styleType = "TEXT" || kv.2.styleType = "EFFECT"

/-- Total number of entries across the three buckets. -/
def bucketSize (b : StyleBuckets) : Nat :=
  b.colors.length + b.typography.length + b.effects.length

/-- Every value in each bucket carries that bucket's `styleType`. -/
def bucketsTyped (b : StyleBuckets) : Prop :=
  ∀ n v, (lookupKey b.colors n = some v → v.styleType = "FILL")
    ∧ (lookupKey b.typography n = some v → v.styleType = "TEXT")
    ∧ (lookupKey b.effects n = some v → v.styleType = "EFFECT")

theorem lookupKey_setKey_cases {α : Type} (l : List (String × α)) (k : String) (v : α)
    (n : String) (w : α) (h : lookupKey (setKey l k v) n = some w) :
    w = v ∨ lookupKey l n = some w := by
  induction l with
  | nil =>
    simp only [setKey, lookupKey] at h
    split at h
    · exact Or.inl (by injection h with h; exact h.symm)
    · cases h
  | cons kv rest ih =>
    rcases kv with ⟨k0, v0⟩
    by_cases h0 : k0 = k
    · subst h0
      simp only [setKey, if_pos rfl, lookupKey] at h
      split at h
      · exact Or.inl (by injection h with h; exact h.symm)
      · exact Or.inr (by simp [lookupKey]; split <;> simp_all)
    · simp only [setKey, if_neg h0, lookupKey] at h
      split at h
      · exact Or.inr (by simp [lookupKey]; split <;> simp_all)
      · rcases ih h with h | h
        · exact Or.inl h
        · refine Or.inr ?_
          simp only [lookupKey]
          split <;> simp_all

theorem setKey_length_le {α : Type} (l : List (String × α)) (k : String) (v : α) :
    (setKey l k v).length ≤ l.length + 1 := by
  induction l with
  | nil => simp [setKey]
  | cons kv rest ih =>
    rcases kv with ⟨k0, v0⟩
    by_cases h0 : k0 = k
    · subst h0
      simp [setKey]
    · simp only [setKey, if_neg h0, List.length_cons]
      omega

theorem collectStyle_typed (acc : StyleBuckets) (s : Style) (h : bucketsTyped acc) :
    bucketsTyped (collectStyle acc s) := by
  intro n v
  unfold collectStyle
  by_cases hf : s.styleType = "FILL"
  · simp only [hf, if_pos rfl]
    refine ⟨?_, (h n v).2.1, (h n v).2.2⟩
    intro hl
    rcases lookupKey_setKey_cases _ _ _ _ _ hl with hv | hv
    · rw [hv]; exact hf
    · exact (h n v).1 hv
  · by_cases ht : s.styleType = "TEXT"
    · simp only [hf, ht, if_neg, if_pos rfl]
      refine ⟨(h n v).1, ?_, (h n v).2.2⟩
      intro hl
      rcases lookupKey_setKey_cases _ _ _ _ _ hl with hv | hv
      · rw [hv]; exact ht
      · exact (h n v).2.1 hv
    · by_cases he : s.styleType = "EFFECT"
      · simp only [hf, ht, he, if_neg, if_pos rfl]
        refine ⟨(h n v).1, (h n v).2.1, ?_⟩
        intro hl
        rcases lookupKey_setKey_cases _ _ _ _ _ hl with hv | hv
        · rw [hv]; exact he
        · exact (h n v).2.2 hv
      · simp only [hf, ht, he, if_neg]
        exact h n v

theorem collectStyle_size (acc : StyleBuckets) (s : Style) :
    bucketSize (collectStyle acc s)
      ≤ bucketSize acc
        + (if s.styleType = "FILL" || s.styleType = "TEXT" || s.styleType = "EFFECT"
           then 1 else 0) := by
  unfold collectStyle bucketSize
  by_cases hf : s.styleType = "FILL"
  · have := setKey_length_le acc.colors s.name s
    simp only [hf]
    simp
    omega
  · by_cases ht : s.styleType = "TEXT"
    · have := setKey_length_le acc.typography s.name s
      simp only [hf, ht, if_neg, if_pos rfl]
      simp [ht]
      omega
    · by_cases he : s.styleType = "EFFECT"
      · have := setKey_length_le acc.effects s.name s
        simp only [hf, ht, he, if_neg, if_pos rfl]
        simp [he]
        omega
      · simp [hf, ht, he]

theorem foldl_collect_typed (entries : List (String × Style)) (acc : StyleBuckets)
    (h : bucketsTyped acc) :
    bucketsTyped (entries.foldl (fun acc kv => collectStyle acc kv.2) acc) := by
  induction entries generalizing acc with
  | nil => exact h
  | cons kv rest ih => exact ih _ (collectStyle_typed acc kv.2 h)

theorem foldl_collect_size (entries : List (String × Style)) (acc : StyleBuckets) :
    bucketSize (entries.foldl (fun acc kv => collectStyle acc kv.2) acc)
      ≤ bucketSize acc + recognizedCount entries := by
  induction entries generalizing acc with
  | nil => simp [recognizedCount]
  | cons kv rest ih =>
    rw [List.foldl_cons]
    have h1 := ih (collectStyle acc kv.2)
    have h2 := collectStyle_size acc kv.2
    have h3 : recognizedCount (kv :: rest)
        = (if kv.2.styleType = "FILL" || kv.2.styleType = "TEXT"
              || kv.2.styleType = "EFFECT" then 1 else 0)
          + recognizedCount rest := by
      simp only [recognizedCount, List.countP_cons]
      split <;> simp_all
      omega
    omega

/-- C7: in the Style Collector's output, every bucket entry carries that
bucket's recognized `styleType` — so a definition with any other `styleType`
appears in none of the three buckets; the number of entries across the
buckets never exceeds the number of input definitions with a recognized
`styleType`; and an absent or empty input mapping yields three empty buckets
without error. -/
theorem c7_style_collector (fd : FileData) :
    bucketsTyped (extractStyles fd)
    ∧ bucketSize (extractStyles fd) ≤ recognizedCount (fd.styles.getD [])
    ∧ ((fd.styles = Option.none ∨ fd.styles = some []) → extractStyles fd = emptyBuckets) := by
  refine ⟨?_, ?_, ?_⟩
  · unfold extractStyles
    cases fd.styles with
    | none =>
      intro n v
      refine ⟨?_, ?_, ?_⟩ <;> intro h <;> simp [emptyBuckets, lookupKey] at h
    | some entries =>
      apply foldl_collect_typed
      intro n v
      refine ⟨?_, ?_, ?_⟩ <;> intro h <;> simp [emptyBuckets, lookupKey] at h
  · unfold extractStyles
    cases hst : fd.styles with
    | none => simp [emptyBuckets, bucketSize, recognizedCount]
    | some entries =>
      have := foldl_collect_size entries emptyBuckets
      simpa [emptyBuckets, bucketSize] using this
  · intro h
    rcases h with h | h <;> simp [extractStyles, h]

/-- Input with no `styles` mapping at all, for the C7 witness. -/
def c7File : FileData :=
  { name := "f", version := "1", lastModified := "today",
    document := Option.none, styles := Option.none }

/-- Witness for `c7_style_collector`: an absent styles mapping yields three
empty buckets. -/
theorem c7_witness :
    (c7File.styles = Option.none ∨ c7File.styles = some [])
    ∧ extractStyles c7File = emptyBuckets :=
  ⟨Or.inl rfl, (c7_style_collector c7File).2.2 (Or.inl rfl)⟩

/-! ## C9: record store `update` / `delete`
(generatedCodeRepository.js lines 148–179)

Records are JS objects, embedded as `Json`; the stored array is the parsed
content of the backing file.  `writeFile` runs only after the lookup
succeeds, so a thrown not-found error leaves the file as it was —
`runMutation` makes that post-state explicit. -/

/-- The `record.id === id` test of `findIndex` / `filter`: strict equality
of the record's `id` property against the string `id`. -/
def idMatches (r : Json) (id : String) : Bool :=
  match objGet r "id" with
  | some (.str s) => s = id
  | _ => false

/-- The merge `((...records[index], ...data, updatedAt: now))`: the old
record's fields, overridden by the patch entries in order, then the
`updatedAt` stamp.  (A non-object record spreads no fields; such a record can
never match an id lookup anyway.) -/
def mergeRecord (r : Json) (patch : List (String × Json)) (now : String) : Json :=
  match r with
  | .obj fields =>
    .obj (setKey (patch.foldl (fun acc kv => setKey acc kv.1 kv.2) fields)
      "updatedAt" (.str now))
  | _ =>
    .obj (setKey (patch.foldl (fun acc kv => setKey acc kv.1 kv.2) [])
      "updatedAt" (.str now))

/-- Embeds `update(id, data)`: replace the first record whose `id` matches
with the merged record; when no record matches (`findIndex` returns -1),
throw `Record with id ... not found` before anything is written. -/
def updateRecord : List Json → String → List (String × Json) → String →
    Except String (List Json)
  | [], id, _, _ => .error ("Record with id " ++ id ++ " not found")
  | r :: rest, id, patch, now =>
    if idMatches r id then .ok (mergeRecord r patch now :: rest)
    else
      match updateRecord rest id patch now with
      | .ok newRest => .ok (r :: newRest)
      | .error e => .error e

/-- Embeds `delete(id)`: keep the records whose `id` differs; when nothing
was dropped (same length), throw `Record with id ... not found` before
anything is written. -/
def deleteRecord (records : List Json) (id : String) : Except String (List Json) :=
  let filtered := records.filter fun r => !(idMatches r id)
  if records.length = filtered.length then
    .error ("Record with id " ++ id ++ " not found")
  else .ok filtered

/-- The stored array after a mutate call: the new array on success; on a
thrown error the write never happens and the store keeps its old content. -/
def runMutation (records : List Json) (result : Except String (List Json)) : List Json :=
  match result with
  | .ok newRecords => newRecords
  | .error _ => records

/-- C9: for an id matched by no stored record, `update` and `delete` both
fail with the not-found error, and the stored record array is left unchanged
by the failed call — no record added, removed, or modified. -/
theorem c9_notfound_leaves_store (records : List Json) (id : String)
    (patch : List (String × Json)) (now : String)
    (h : ∀ r ∈ records, idMatches r id = false) :
    updateRecord records id patch now = .error ("Record with id " ++ id ++ " not found")
    ∧ deleteRecord records id = .error ("Record with id " ++ id ++ " not found")
    ∧ runMutation records (updateRecord records id patch now) = records
    ∧ runMutation records (deleteRecord records id) = records := by
  have hupd : ∀ (rs : List Json), (∀ r ∈ rs, idMatches r id = false) →
      updateRecord rs id patch now = .error ("Record with id " ++ id ++ " not found") := by
    intro rs
    induction rs with
    | nil => intro _; rfl
    | cons r rest ih =>
      intro hall
      have hr : idMatches r id = false := hall r (List.mem_cons_self r rest)
      have hrest := ih fun x hx => hall x (List.mem_cons_of_mem _ hx)
      simp [updateRecord, hr, hrest]
  have hu := hupd records h
  have hfil : records.filter (fun r => !(idMatches r id)) = records :=
    List.filter_eq_self.mpr fun r hr => by simp [h r hr]
  have hd : deleteRecord records id
      = .error ("Record with id " ++ id ++ " not found") := by
    simp [deleteRecord, hfil]
  exact ⟨hu, hd, by rw [hu]; rfl, by rw [hd]; rfl⟩

/-- A one-record store for the C9 witness. -/
def c9Records : List Json :=
  [.obj [("id", .str "rec-1"), ("framework", .str "react")]]

/-- Witness for `c9_notfound_leaves_store` on a store without the requested
id. -/
theorem c9_witness :
    (∀ r ∈ c9Records, idMatches r "missing" = false)
    ∧ updateRecord c9Records "missing" [] "2026-01-01"
      = .error "Record with id missing not found"
    ∧ runMutation c9Records (deleteRecord c9Records "missing") = c9Records := by
  have h : ∀ r ∈ c9Records, idMatches r "missing" = false := by decide
  refine ⟨h, ?_, ?_⟩
  · exact ((c9_notfound_leaves_store c9Records "missing" [] "2026-01-01" h).1).trans (by rfl)
  · exact (c9_notfound_leaves_store c9Records "missing" [] "2026-01-01" h).2.2.2

/-! ## C10: `sanitizeFileName` (validators.js lines 54–56) and the persisted
artifact name (projectExtractionService.js line 120) -/

/-- The character class `[a-z0-9]` with the `i` flag: exactly the ASCII
letters and digits (the ECMAScript canonicalization of a non-ASCII character
never lands in ASCII, so no other character matches). -/
def isSafeAlphanum (c : Char) : Bool :=
  ('a' ≤ c && c ≤ 'z') || ('A' ≤ c && c ≤ 'Z') || ('0' ≤ c && c ≤ '9')

/-- Embeds `name.replace(/[^a-z0-9]/gi, '-')`: every character outside the
class becomes `'-'`, character by character. -/
def replaceUnsafe (c : Char) : Char :=
  if isSafeAlphanum c then c else '-'

/-- Embeds `sanitizeFileName`: the replacement pass, then `.toLowerCase()`.
After replacement every character is ASCII, where `.toLowerCase()` lowercases
exactly the letters `A`–`Z` — `Char.toLower`'s behavior. -/
def sanitizeFileName (s : String) : String :=
  String.mk ((s.data.map replaceUnsafe).map Char.toLower)

/-- The persisted per-file artifact name built by `saveFileSpec`. -/
def jsonFileName (fileName : String) : String :=
  sanitizeFileName fileName ++ ".json"

theorem char_le_iff_toNat {a b : Char} : a ≤ b ↔ a.toNat ≤ b.toNat := by
  rw [Char.le_def, UInt32.le_def, BitVec.le_def]
  exact Iff.rfl

theorem toNat_ofNat_valid {m : Nat} (h : m < 55296) : (Char.ofNat m).toNat = m := by
  have hv : m.isValidChar := Or.inl h
  rw [Char.ofNat, dif_pos hv]
  simp [Char.ofNatAux, Char.toNat, UInt32.toNat]

theorem toLower_eq (c : Char) :
    Char.toLower c
      = if 65 ≤ c.toNat ∧ c.toNat ≤ 90 then Char.ofNat (c.toNat + 32) else c := rfl

/-- Pointwise form of the sanitizer's output alphabet. -/
theorem sanitized_char_ok (c : Char) :
    ('a' ≤ Char.toLower (replaceUnsafe c) ∧ Char.toLower (replaceUnsafe c) ≤ 'z')
    ∨ ('0' ≤ Char.toLower (replaceUnsafe c) ∧ Char.toLower (replaceUnsafe c) ≤ '9')
    ∨ Char.toLower (replaceUnsafe c) = '-' := by
  unfold replaceUnsafe
  by_cases hsafe : isSafeAlphanum c = true
  · rw [if_pos hsafe]
    unfold isSafeAlphanum at hsafe
    simp only [Bool.or_eq_true, Bool.and_eq_true, decide_eq_true_eq] at hsafe
    rcases hsafe with (⟨h1, h2⟩ | ⟨h1, h2⟩) | ⟨h1, h2⟩
    · left
      rw [char_le_iff_toNat] at h1 h2
      have h1' : 97 ≤ c.toNat := h1
      have h2' : c.toNat ≤ 122 := h2
      have hlow : Char.toLower c = c := by
        rw [toLower_eq, if_neg]
        intro hcontra
        omega
      rw [hlow, char_le_iff_toNat, char_le_iff_toNat]
      exact ⟨h1', h2'⟩
    · left
      rw [char_le_iff_toNat] at h1 h2
      have h1' : 65 ≤ c.toNat := h1
      have h2' : c.toNat ≤ 90 := h2
      have hlow : Char.toLower c = Char.ofNat (c.toNat + 32) := by
        rw [toLower_eq, if_pos ⟨h1', h2'⟩]
      have hofnat : (Char.ofNat (c.toNat + 32)).toNat = c.toNat + 32 :=
        toNat_ofNat_valid (by omega)
      rw [hlow, char_le_iff_toNat, char_le_iff_toNat, hofnat]
      constructor
      · show (97 : Nat) ≤ c.toNat + 32
        omega
      · show c.toNat + 32 ≤ (122 : Nat)
        omega
    · right; left
      rw [char_le_iff_toNat] at h1 h2
      have h1' : 48 ≤ c.toNat := h1
      have h2' : c.toNat ≤ 57 := h2
      have hlow : Char.toLower c = c := by
        rw [toLower_eq, if_neg]
        intro hcontra
        omega
      rw [hlow, char_le_iff_toNat, char_le_iff_toNat]
      exact ⟨h1', h2'⟩
  · rw [if_neg hsafe]
    right; right
    decide

/-- C10: `sanitizeFileName` keeps the input's length and emits only
lowercase ASCII letters, digits and `'-'`; consequently the persisted
artifact name `sanitizeFileName(name) + ".json"` contains no path separators
and its only dot is the extension's. -/
theorem c10_sanitize_file_name (s : String) :
    (sanitizeFileName s).length = s.length
    ∧ (∀ c ∈ (sanitizeFileName s).data,
        ('a' ≤ c ∧ c ≤ 'z') ∨ ('0' ≤ c ∧ c ≤ '9') ∨ c = '-')
    ∧ (∀ c ∈ (jsonFileName s).data, ¬(c = '/') ∧ ¬(c = '\\'))
    ∧ (jsonFileName s).data.count '.' = 1 := by
  have hdata : (sanitizeFileName s).data = (s.data.map replaceUnsafe).map Char.toLower := rfl
  have hmem : ∀ c ∈ (sanitizeFileName s).data,
      ('a' ≤ c ∧ c ≤ 'z') ∨ ('0' ≤ c ∧ c ≤ '9') ∨ c = '-' := by
    intro c hc
    rw [hdata, List.map_map] at hc
    rcases List.mem_map.mp hc with ⟨a, _, ha⟩
    simp only [Function.comp_apply] at ha
    rw [← ha]
    exact sanitized_char_ok a
  refine ⟨?_, hmem, ?_, ?_⟩
  · show ((s.data.map replaceUnsafe).map Char.toLower).length = s.data.length
    simp
  · have hjson : (jsonFileName s).data
        = (sanitizeFileName s).data ++ ".json".data := by
      simp [jsonFileName]
    intro c hc
    rw [hjson, List.mem_append] at hc
    rcases hc with hc | hc
    · rcases hmem c hc with ⟨h1, h2⟩ | ⟨h1, h2⟩ | h1
      · rw [char_le_iff_toNat] at h1 h2
        constructor <;> intro he <;> subst he <;> revert h1 h2 <;> decide
      · rw [char_le_iff_toNat] at h1 h2
        constructor <;> intro he <;> subst he <;> revert h1 h2 <;> decide
      · subst h1; decide
    · fin_cases hc <;> decide
  · have hjson : (jsonFileName s).data
        = (sanitizeFileName s).data ++ ".json".data := by
      simp [jsonFileName]
    rw [hjson, List.count_append]
    have hz : (sanitizeFileName s).data.count '.' = 0 := by
      rw [List.count_eq_zero]
      intro hc
      rcases hmem '.' hc with ⟨h1, h2⟩ | ⟨h1, h2⟩ | h1
      · rw [char_le_iff_toNat] at h1 h2
        revert h1 h2; decide
      · rw [char_le_iff_toNat] at h1 h2
        revert h1 h2; decide
      · cases h1
    rw [hz]
    decide

/-- Witness-style corollary of `c10_sanitize_file_name` at a concrete messy
file name. -/
theorem c10_witness :
    (sanitizeFileName "My File (v2).fig").length = ("My File (v2).fig" : String).length
    ∧ (jsonFileName "My File (v2).fig").data.count '.' = 1 :=
  ⟨(c10_sanitize_file_name "My File (v2).fig").1,
    (c10_sanitize_file_name "My File (v2).fig").2.2.2⟩

end FigmaX
